import Mathlib

set_option maxRecDepth 4000000
set_option maxHeartbeats 2000000

/-!
Verification of the Aurornis command-line test-helper library.

The Python sources are embedded shallowly:

* text is modelled as `List Char` (a Python `str` is a sequence of
  code points; Lean's `Char` coincides with a non-surrogate code point);
* Python `dict`s are modelled as insertion-ordered association lists
  (`List (String × α)`), with `dictSet` mirroring `d[k] = v`
  (update in place if the key exists, else append) and `dictGet`
  mirroring `d.get(k)`;
* `str.replace(old, "")` is `replaceAll` below: a single left-to-right
  scan removing non-overlapping occurrences, continuing after each match;
* machine integers are `Nat`/`Int`; the binary64 true division performed
  by Python's `int(n / 1000)` is modelled exactly (round to nearest,
  ties to even, unbounded exponent) by `intDivFloat1000`;
* `datetime` subtraction followed by `.microseconds` keeps only the
  sub-second component of the elapsed time, i.e. `(end - start) % 1000000`
  when both timestamps are taken in microseconds;
* the operating system is abstracted by explicit parameters: the platform
  string, the calling process's environment (`String → Option String`),
  the two clock readings, and the child process behaviour (`ProcBehavior`).
-/

namespace Aurornis

/-- Python dict assignment `d[k] = v`: overwrite the first binding of `k`
in place, or append a new binding at the end (insertion order preserved). -/
def dictSet (d : List (String × α)) (k : String) (v : α) : List (String × α) :=
  match d with
  | [] => [(k, v)]
  | (k', v') :: rest => if k' = k then (k, v) :: rest else (k', v') :: dictSet rest k v

/-- Python dict lookup `d.get(k)`. -/
def dictGet (d : List (String × α)) (k : String) : Option α :=
  match d with
  | [] => none
  | (k', v) :: rest => if k' = k then some v else dictGet rest k

/-- The value the last binding of `k` in the list would leave in a dict
built by successive assignments. -/
def lookupLast (u : List (String × String)) (k : String) : Option String :=
  match u with
  | [] => none
  | (k', v) :: rest =>
    match lookupLast rest k with
    | some w => some w
    | none => if k' = k then some v else none

/-- The module constant `UNIX_ESC_CHAR = "\33"` (octal 33 = 0x1B). -/
def UNIX_ESC_CHAR : Char := Char.ofNat 27

/-- The module constant `WINDOWS_ESC_CHAR = "\u001b"`. -/
def WINDOWS_ESC_CHAR : Char := Char.ofNat 27

/-- The colour sequence `f"{esc}[{mode};{ten}{unit}m"` built by the loop body
of `_remove_colors` (digits are code points 48+digit). -/
def seqOf (esc : Char) (mode ten unit : Nat) : List Char :=
  [esc, '[', Char.ofNat (48 + mode), ';', Char.ofNat (48 + ten), Char.ofNat (48 + unit), 'm']

/-- The bare reset sequence `f"{esc}[0m"`. -/
def resetSeq (esc : Char) : List Char := [esc, '[', '0', 'm']

/-- The 96 colour sequences in the exact order the source's nested loops
produce them: `mode` in `range(6)`, `ten` in `[3, 4]`, `unit` in `range(8)`. -/
def allSeqs (esc : Char) : List (List Char) :=
  (List.range 6).flatMap fun mode =>
    [3, 4].flatMap fun ten =>
      (List.range 8).map fun unit => seqOf esc mode ten unit

/-- The fuel-based body of `replaceAll`; the fuel is the length of the string,
which suffices because each step consumes at least one character. -/
def replaceAllGo (pat : List Char) : Nat → List Char → List Char
  | _, [] => []
  | 0, s => s
  | fuel + 1, c :: rest =>
    if pat.isPrefixOf (c :: rest) then replaceAllGo pat fuel (rest.drop (pat.length - 1))
    else c :: replaceAllGo pat fuel rest

/-- Python `s.replace(pat, "")` for a non-empty pattern: one left-to-right
scan, removing non-overlapping occurrences and continuing after each match
(the removal never re-examines characters already emitted). -/
def replaceAll (s pat : List Char) : List Char := replaceAllGo pat s.length s

/-- One full pass of `_remove_colors` for a given escape character: the 96
colour-sequence replacements in loop order, then the bare reset replacement. -/
def onePass (esc : Char) (s : List Char) : List Char :=
  replaceAll ((allSeqs esc).foldl (fun acc q => replaceAll acc q) s) (resetSeq esc)

/-- The function `_remove_colors`: the outer loop runs one pass for `UNIX_ESC_CHAR`,
then one pass for `WINDOWS_ESC_CHAR`. -/
def _remove_colors (from_text : List Char) : List Char :=
  [UNIX_ESC_CHAR, WINDOWS_ESC_CHAR].foldl (fun acc esc => onePass esc acc) from_text

/-- Python `pat in s` (substring containment) for lists of characters. -/
def containsSeq (pat : List Char) : List Char → Bool
  | [] => pat.isEmpty
  | c :: rest => pat.isPrefixOf (c :: rest) || containsSeq pat rest

/-- The enumerated match set of the specification: all 96 colour sequences
plus the bare reset sequence, for the single ESC code point 0x1B. -/
def enumSeqs : List (List Char) := allSeqs UNIX_ESC_CHAR ++ [resetSeq UNIX_ESC_CHAR]

/-- Containment of some enumerated sequence, as one boolean: true when any
of the 97 sequences occurs in `s`. -/
def containsAnyEnum (s : List Char) : Bool := enumSeqs.any fun q => containsSeq q s

/-- The fuel-based body of `stripSpec`. -/
def stripSpecGo : Nat → List Char → List Char
  | _, [] => []
  | 0, s => s
  | fuel + 1, c :: rest =>
    match enumSeqs.find? (fun q => q.isPrefixOf (c :: rest)) with
    | some q => stripSpecGo fuel ((c :: rest).drop q.length)
    | none => c :: stripSpecGo fuel rest

/-- Modelled from the spec's words, for comparison with `_remove_colors`:
remove exactly the occurrences of the enumerated sequences from the input,
in one left-to-right scan, and leave every other character untouched.
(Occurrences of distinct enumerated sequences can never overlap, because
each sequence contains the ESC character exactly once, at its head, so the
leftmost-first scan removes precisely the set of occurrences present in the
input.) -/
def stripSpec (s : List Char) : List Char := stripSpecGo s.length s

/-- The fuel-based body of `normalize_cr`. -/
def normalizeCRGo : Nat → List Char → List Char
  | _, [] => []
  | 0, s => s
  | fuel + 1, c :: rest =>
    if c = '\r' ∧ rest.head? = some '\n' then '\n' :: normalizeCRGo fuel (rest.drop 1)
    else c :: normalizeCRGo fuel rest

/-- Python `s.replace("\r\n", "\n")`: the scan continues after each
replacement, never re-examining the emitted `"\n"`. -/
def normalize_cr (s : List Char) : List Char := normalizeCRGo s.length s

/-- The UTF-8 encoding of one code point, as Python `str.encode("utf-8")`
produces it (a `Char` is never a surrogate, so the strict codec succeeds). -/
def utf8EncodeChar (c : Char) : List Nat :=
  let n := c.toNat
  if n < 128 then [n]
  else if n < 2048 then [192 + n / 64, 128 + n % 64]
  else if n < 65536 then [224 + n / 4096, 128 + n / 64 % 64, 128 + n % 64]
  else [240 + n / 262144, 128 + n / 4096 % 64, 128 + n / 64 % 64, 128 + n % 64]

/-- The UTF-8 encoding of a string, one byte per `Nat` (each below 256). -/
def encodeUTF8 (s : List Char) : List Nat := s.flatMap utf8EncodeChar

/-- Python `"\n".join(lines)`. -/
def joinLines : List (List Char) → List Char
  | [] => []
  | [l] => l
  | l :: rest => l ++ '\n' :: joinLines rest

/-- The `input` value of `run`: `"\n".join(stdin).encode("utf-8")` when
`stdin` is a non-empty list, `None` otherwise. -/
def stdinBlock (stdin : Option (List (List Char))) : Option (List Nat) :=
  match stdin with
  | some lines => if 0 < lines.length then some (encodeUTF8 (joinLines lines)) else none
  | none => none

/-- Base-2 logarithm computed with explicit fuel (the recursion halves its
argument, so fuel equal to the argument is always sufficient). -/
def log2fuel : Nat → Nat → Nat
  | 0, _ => 0
  | fuel + 1, n => if 2 ≤ n then log2fuel fuel (n / 2) + 1 else 0

/-- Smallest `k` with `1000 ≤ n * 2 ^ k`, for `1 ≤ n ≤ 999` (ten doublings
always suffice since `2 ^ 10 = 1024`). -/
def clogFuel : Nat → Nat → Nat
  | 0, _ => 0
  | fuel + 1, n => if 1000 ≤ n then 0 else clogFuel fuel (2 * n) + 1

/-- Round `a / b` to the nearest integer, ties to even (`b > 0`). -/
def rne (a b : Nat) : Nat :=
  let q := a / b
  let r := a % b
  if 2 * r < b then q
  else if b < 2 * r then q + 1
  else if q % 2 = 0 then q else q + 1

/-- Truncation toward zero of the binary64 value nearest to `n / 1000`,
given `e = ⌊log2 (n / 1000)⌋` for `n ≥ 1`: the significand grid on the
binade `[2 ^ e, 2 ^ (e + 1))` has spacing `2 ^ (e - 52)`, so the nearest
representable value is the nearest-even multiple of that spacing. -/
def floatDivTrunc (n : Nat) (e : Int) : Nat :=
  if 0 ≤ e - 52 then rne n (1000 * 2 ^ (e - 52).toNat) * 2 ^ (e - 52).toNat
  else rne (n * 2 ^ (52 - e).toNat) 1000 / 2 ^ (52 - e).toNat

/-- Python `int(n / 1000)` on a non-negative `int` `n`: true division
produces the IEEE-754 binary64 value nearest to `n / 1000` (round to
nearest, ties to even; the exponent is treated as unbounded, which agrees
with Python for every `n` below the binary64 overflow threshold), and
`int` then truncates it toward zero.  The binade exponent
`⌊log2 (n / 1000)⌋` is `log2fuel` of the integer quotient when `n ≥ 1000`,
and `-k` with `k` the smallest exponent satisfying `1000 ≤ n * 2 ^ k`
otherwise. -/
def intDivFloat1000 (n : Nat) : Nat :=
  if n = 0 then 0
  else if 1000 ≤ n then floatDivTrunc n ((log2fuel (n / 1000) (n / 1000) : Nat) : Int)
  else floatDivTrunc n (-((clogFuel 10 n : Nat) : Int))

/-- The `CommandResult` class of `aurornis/__init__.py`.  Its five private
attributes are set once by `__init__` and never mutated. -/
structure CommandResult where
  _command : List (List Char)
  _return_code : Int
  _stdout : List Char
  _stderr : List Char
  _exec_time_microseconds : Nat

/-- Property `command`. -/
def CommandResult.command (r : CommandResult) : List (List Char) := r._command

/-- Property `return_code`. -/
def CommandResult.return_code (r : CommandResult) : Int := r._return_code

/-- Property `stdout`. -/
def CommandResult.stdout (r : CommandResult) : List Char := r._stdout

/-- Property `stderr`. -/
def CommandResult.stderr (r : CommandResult) : List Char := r._stderr

/-- Property `exec_time_us`: returns the stored microsecond count. -/
def CommandResult.exec_time_us (r : CommandResult) : Nat := r._exec_time_microseconds

/-- Property `exec_time_ms`: `int(self._exec_time_microseconds / 1000)`. -/
def CommandResult.exec_time_ms (r : CommandResult) : Nat :=
  intDivFloat1000 r._exec_time_microseconds

/-- Method `is_successful`: `self.return_code == 0`. -/
def CommandResult.is_successful (r : CommandResult) : Bool := r.return_code == 0

/-- The function `_get_execution_environment(user_environment, remove_colors)`.  The
ambient state it reads — `sys.platform` and `os.environ` — is passed
explicitly; `environ.get` yields `none` for an unset variable, which the
dict stores as the value `none` (Python `None`). -/
def _get_execution_environment (platform : List Char) (environ : String → Option String)
    (user_environment : Option (List (String × String))) (remove_colors : Bool) :
    List (String × Option String) :=
  let exec_env : List (String × Option String) := [("LANG", some "C")]
  let exec_env :=
    if platform = "win32".data then dictSet exec_env "SystemRoot" (environ "SystemRoot")
    else dictSet exec_env "PATH" (environ "PATH")
  let exec_env :=
    match user_environment with
    | none => exec_env
    | some u => u.foldl (fun d kv => dictSet d kv.1 (some kv.2)) exec_env
  if remove_colors then dictSet exec_env "NO_COLOR" (some "1") else exec_env

/-- The exception `subprocess.Popen` raises when the executable cannot be
launched (not found, not executable, permission denied); `run` installs no
handler, so it propagates unchanged to the caller. -/
inductive SpawnError where
  | popenRaised : SpawnError
deriving DecidableEq

/-- The behaviour of the operating system for one spawn attempt: either the
spawn fails, or a child runs, mapping the environment it was spawned with
and the bytes delivered on its standard input to an exit code and the
(already UTF-8-decoded) contents of its two output streams. -/
inductive ProcBehavior where
  | spawnFailure : ProcBehavior
  | launched
      (child : List (String × Option String) → Option (List Nat) → Int × List Char × List Char) :
      ProcBehavior

/-- The function `run(command, environment, remove_colors, stdin, normalize_carriage_return)`.
The ambient state is explicit: `platform` and `environ` feed
`_get_execution_environment`, `proc` is the operating system's behaviour,
and `start_us`/`end_us` are the two `datetime.now()` readings in
microseconds since the epoch (`end_us ≥ start_us`).  Subtracting two
`datetime` values yields a `timedelta`, and the code stores its
`.microseconds` attribute — the sub-second component of the elapsed time,
`(end_us - start_us) % 1000000`. -/
def run (command : List (List Char)) (environment : Option (List (String × String)))
    (remove_colors : Bool) (stdin : Option (List (List Char)))
    (normalize_carriage_return : Bool) (platform : List Char)
    (environ : String → Option String) (proc : ProcBehavior) (start_us end_us : Nat) :
    Except SpawnError CommandResult :=
  let input := stdinBlock stdin
  match proc with
  | .spawnFailure => .error SpawnError.popenRaised
  | .launched child =>
    let res := child (_get_execution_environment platform environ environment remove_colors) input
    let returncode := res.1
    let stdout := res.2.1
    let stderr := res.2.2
    let stdout := if normalize_carriage_return then normalize_cr stdout else stdout
    let stderr := if normalize_carriage_return then normalize_cr stderr else stderr
    let exec_time := (end_us - start_us) % 1000000
    let stdout := if remove_colors then _remove_colors stdout else stdout
    let stderr := if remove_colors then _remove_colors stderr else stderr
    .ok ⟨command, returncode, stdout, stderr, exec_time⟩

end Aurornis

namespace AurornisModel

/-- The `CommandResult` class of `aurornis/model.py` (the revision that
stores nanoseconds). -/
structure CommandResult where
  _command : List (List Char)
  _return_code : Int
  _stdout : List Char
  _stderr : List Char
  _exec_time_nanoseconds : Nat

/-- Property `return_code`. -/
def CommandResult.return_code (r : CommandResult) : Int := r._return_code

/-- Property `successful`: `self.return_code == 0`. -/
def CommandResult.successful (r : CommandResult) : Bool := r.return_code == 0

/-- Deprecated method `is_successful`: `return self.successful`. -/
def CommandResult.is_successful (r : CommandResult) : Bool := r.successful

/-- Property `exec_time_ns`: returns the stored nanosecond count. -/
def CommandResult.exec_time_ns (r : CommandResult) : Nat := r._exec_time_nanoseconds

/-- Property `exec_time_us`: `int(self.exec_time_ns / 1000)`. -/
def CommandResult.exec_time_us (r : CommandResult) : Nat :=
  Aurornis.intDivFloat1000 r.exec_time_ns

/-- Property `exec_time_ms`: `int(self.exec_time_us / 1000)`. -/
def CommandResult.exec_time_ms (r : CommandResult) : Nat :=
  Aurornis.intDivFloat1000 r.exec_time_us

end AurornisModel

namespace Aurornis

theorem replaceAllGo_of_not_contains (pat : List Char) :
    ∀ (s : List Char) (fuel : Nat), s.length ≤ fuel → containsSeq pat s = false →
      replaceAllGo pat fuel s = s := by
  intro s
  induction s with
  | nil => intro fuel _ _; cases fuel <;> rfl
  | cons c rest ih =>
    intro fuel hlen hcon
    cases fuel with
    | zero => simp at hlen
    | succ f =>
      rw [containsSeq, Bool.or_eq_false_iff] at hcon
      rw [replaceAllGo, if_neg (by simp [hcon.1])]
      rw [ih f (by simpa using Nat.lt_succ_iff.mp (Nat.lt_of_lt_of_le (Nat.lt_succ_self _)
        (by simpa using hlen))) hcon.2]

theorem replaceAll_of_not_contains (s pat : List Char) (h : containsSeq pat s = false) :
    replaceAll s pat = s :=
  replaceAllGo_of_not_contains pat s s.length le_rfl h

theorem foldl_replaceAll_of_not_contains :
    ∀ (qs : List (List Char)) (s : List Char),
      (∀ q ∈ qs, containsSeq q s = false) →
      qs.foldl (fun acc q => replaceAll acc q) s = s := by
  intro qs
  induction qs with
  | nil => intro s _; rfl
  | cons q rest ih =>
    intro s h
    have h1 : replaceAll s q = s := replaceAll_of_not_contains s q (h q (by simp))
    rw [List.foldl_cons, h1]
    exact ih s fun q' hq' => h q' (by simp [hq'])

theorem onePass_of_not_contains (esc : Char) (s : List Char)
    (h : ∀ q ∈ allSeqs esc ++ [resetSeq esc], containsSeq q s = false) :
    onePass esc s = s := by
  unfold onePass
  rw [foldl_replaceAll_of_not_contains _ s fun q hq => h q (by simp [hq])]
  exact replaceAll_of_not_contains s _ (h _ (by simp))

/-- Shared helper: unfolding the two iterations of the outer loop of
`_remove_colors`. -/
theorem remove_colors_eq_double_pass (s : List Char) :
    _remove_colors s = onePass WINDOWS_ESC_CHAR (onePass UNIX_ESC_CHAR s) := by
  simp only [_remove_colors, List.foldl_cons, List.foldl_nil]

/-- Shared helper: a string containing no occurrence of any enumerated
sequence passes through `_remove_colors` unchanged (every one of the 194
`replace` calls is the identity on it). -/
theorem remove_colors_of_not_contains (s : List Char)
    (hb : containsAnyEnum s = false) : _remove_colors s = s := by
  have h : ∀ q ∈ enumSeqs, containsSeq q s = false := by
    rw [containsAnyEnum, List.any_eq_false] at hb
    intro q hq
    simpa using hb q hq
  have hu : onePass UNIX_ESC_CHAR s = s := onePass_of_not_contains _ _ h
  have hw : onePass WINDOWS_ESC_CHAR s = s := onePass_of_not_contains _ _ h
  rw [remove_colors_eq_double_pass, hu, hw]

end Aurornis

/-- Claim C2, amended part: any input string containing no occurrence of any
of the enumerated SGR sequences (`containsAnyEnum s = false`) — in
particular a string whose escape sequences are all of other forms — is
returned unchanged by the colour stripper `_remove_colors`. -/
theorem c2_strip_noop_without_enumerated_sequences (s : List Char)
    (h : Aurornis.containsAnyEnum s = false) :
    Aurornis._remove_colors s = s :=
  Aurornis.remove_colors_of_not_contains s h

/-- Claim C2 witness: the input `"a\x1b[1mb"` contains an escape sequence of
another form (`ESC[1m` has no `;<tens><units>` part) and no enumerated
sequence, and the stripper leaves it unchanged. -/
theorem c2_strip_noop_without_enumerated_sequences_witness :
    Aurornis.containsAnyEnum "a\x1b[1mb".data = false ∧
    Aurornis._remove_colors "a\x1b[1mb".data = "a\x1b[1mb".data :=
  ⟨by rfl, c2_strip_noop_without_enumerated_sequences _ (by rfl)⟩

/-- Claim C2 counterexample: on `"\x1b[0;\x1b[0;30m30m"` the only occurrence
of an enumerated sequence is the inner `"\x1b[0;30m"`; removing exactly that
occurrence and leaving every other character untouched yields
`"\x1b[0;30m"` (the value of `stripSpec`), but `_remove_colors` returns the
empty string: its later replace passes also consume the new sequence formed
by the characters surrounding the removed occurrence. -/
theorem c2_exact_occurrence_removal_counterexample :
    Aurornis._remove_colors "\x1b[0;\x1b[0;30m30m".data = [] ∧
    Aurornis.stripSpec "\x1b[0;\x1b[0;30m30m".data = "\x1b[0;30m".data ∧
    Aurornis._remove_colors "\x1b[0;\x1b[0;30m30m".data ≠
      Aurornis.stripSpec "\x1b[0;\x1b[0;30m30m".data := by
  have h1 : Aurornis._remove_colors "\x1b[0;\x1b[0;30m30m".data = [] := by rfl
  have h2 : Aurornis.stripSpec "\x1b[0;\x1b[0;30m30m".data = "\x1b[0;30m".data := by rfl
  exact ⟨h1, h2, by rw [h1, h2]; decide⟩

/-- Claim C3, amended part: the stripper is idempotent at every input `t`
whose stripped form contains no enumerated sequence (in particular at every
input that contains none to begin with). -/
theorem c3_strip_idempotent_when_result_clean (t : List Char)
    (h : Aurornis.containsAnyEnum (Aurornis._remove_colors t) = false) :
    Aurornis._remove_colors (Aurornis._remove_colors t) = Aurornis._remove_colors t :=
  Aurornis.remove_colors_of_not_contains _ h

/-- Claim C3 witness: stripping `"x\x1b[0;31my"` yields `"xy"`, which
contains no enumerated sequence, so a second stripping changes nothing. -/
theorem c3_strip_idempotent_when_result_clean_witness :
    Aurornis._remove_colors "x\x1b[0;31my".data = "xy".data ∧
    Aurornis._remove_colors (Aurornis._remove_colors "x\x1b[0;31my".data) =
      Aurornis._remove_colors "x\x1b[0;31my".data :=
  ⟨by rfl, c3_strip_idempotent_when_result_clean _ (by rfl)⟩

/-- Claim C3 counterexample: stripping `"\x1b[0;\x1b[0;\x1b[0;30m30m30m"`
once yields `"\x1b[0;30m"`, and stripping that again yields the empty
string, so applying `_remove_colors` twice differs from applying it once. -/
theorem c3_not_idempotent_counterexample :
    Aurornis._remove_colors "\x1b[0;\x1b[0;\x1b[0;30m30m30m".data = "\x1b[0;30m".data ∧
    Aurornis._remove_colors (Aurornis._remove_colors "\x1b[0;\x1b[0;\x1b[0;30m30m30m".data) ≠
      Aurornis._remove_colors "\x1b[0;\x1b[0;\x1b[0;30m30m30m".data := by
  have h1 : Aurornis._remove_colors "\x1b[0;\x1b[0;\x1b[0;30m30m30m".data
      = "\x1b[0;30m".data := by rfl
  have h2 : Aurornis._remove_colors "\x1b[0;30m".data = [] := by rfl
  refine ⟨h1, ?_⟩
  rw [h1, h2]
  decide

/-- Claim C10, amended part: the two module constants denote the identical
code point U+001B, and consequently `_remove_colors` coincides with the
single-escape-character pass applied twice; the second pass is nonetheless
not redundant (see the counterexample). -/
theorem c10_esc_constants_equal_stripper_is_double_pass :
    Aurornis.UNIX_ESC_CHAR = Aurornis.WINDOWS_ESC_CHAR ∧
    ∀ t, Aurornis._remove_colors t =
      Aurornis.onePass Aurornis.UNIX_ESC_CHAR (Aurornis.onePass Aurornis.UNIX_ESC_CHAR t) :=
  ⟨rfl, fun t => Aurornis.remove_colors_eq_double_pass t⟩

namespace Aurornis

theorem dictGet_dictSet (d : List (String × α)) (k' : String) (v : α) (k : String) :
    dictGet (dictSet d k' v) k = if k = k' then some v else dictGet d k := by
  induction d with
  | nil =>
    by_cases h : k' = k
    · subst h
      simp [dictSet, dictGet]
    · simp [dictSet, dictGet, h, Ne.symm h]
  | cons a rest ih =>
    obtain ⟨ka, va⟩ := a
    by_cases h1 : ka = k'
    · subst h1
      by_cases h2 : ka = k
      · subst h2
        simp [dictSet, dictGet]
      · simp [dictSet, dictGet, h2, Ne.symm h2]
    · by_cases h2 : ka = k
      · subst h2
        simp [dictSet, dictGet, h1, Ne.symm h1]
      · simp [dictSet, dictGet, h1, h2, ih]

theorem dictGet_foldl_user :
    ∀ (u : List (String × String)) (d : List (String × Option String)) (k : String),
      dictGet (u.foldl (fun d kv => dictSet d kv.1 (some kv.2)) d) k =
        match lookupLast u k with
        | some v => some (some v)
        | none => dictGet d k := by
  intro u
  induction u with
  | nil => intro d k; rfl
  | cons kv rest ih =>
    intro d k
    rw [List.foldl_cons, ih]
    cases h : lookupLast rest k with
    | some w => simp [lookupLast, h]
    | none =>
      rw [dictGet_dictSet]
      simp only [lookupLast, h]
      by_cases hk : kv.1 = k
      · simp [hk]
      · simp [hk, Ne.symm hk]

/-- Shared helper: complete functional characterization of the environment
constructor.  Precedence is `NO_COLOR` (when `remove_colors`), then the
caller-supplied entries (latest binding first), then the base — which
always contains `LANG="C"` and the platform's executable-resolution
variable. -/
theorem dictGet_execution_environment (p : List Char) (environ : String → Option String)
    (u : List (String × String)) (strip : Bool) (k : String) :
    dictGet (_get_execution_environment p environ (some u) strip) k =
      if strip = true ∧ k = "NO_COLOR" then some (some "1")
      else
        match lookupLast u k with
        | some v => some (some v)
        | none =>
          if k = "LANG" then some (some "C")
          else if p = "win32".data then
            if k = "SystemRoot" then some (environ "SystemRoot") else none
          else if k = "PATH" then some (environ "PATH") else none := by
  have e1 : ("LANG" : String) ≠ "NO_COLOR" := by decide
  have e2 : ("LANG" : String) ≠ "SystemRoot" := by decide
  have e3 : ("LANG" : String) ≠ "PATH" := by decide
  have e4 : ("NO_COLOR" : String) ≠ "SystemRoot" := by decide
  have e5 : ("NO_COLOR" : String) ≠ "PATH" := by decide
  have e6 : ("SystemRoot" : String) ≠ "PATH" := by decide
  have f1 := e1.symm
  have f2 := e2.symm
  have f3 := e3.symm
  have f4 := e4.symm
  have f5 := e5.symm
  have f6 := e6.symm
  cases strip <;> by_cases hp : p = "win32".data <;>
    by_cases hN : k = "NO_COLOR" <;> by_cases hL : k = "LANG" <;>
      by_cases hS : k = "SystemRoot" <;> by_cases hP : k = "PATH" <;>
        cases hu : lookupLast u k <;>
          simp_all [_get_execution_environment, dictGet_dictSet, dictGet_foldl_user, dictGet] <;>
            simp_all [eq_comm]

end Aurornis

/-- Claim C5, amended: for every caller-supplied mapping and strip flag, the
environment constructor returns exactly the minimal base — which holds the
executable-resolution variable (`PATH` on POSIX, `SystemRoot` on
Windows-like platforms) AND the fixed entry `LANG="C"` — overlaid with all
caller-supplied entries (caller entries overwrite conflicting base keys),
with `NO_COLOR` force-set to `"1"` when strip-colors is true; no other key
appears in the result (an omitted mapping behaves as an empty one). -/
theorem c5_execution_environment_characterization :
    (∀ (p : List Char) (environ : String → Option String) (b : Bool),
      Aurornis._get_execution_environment p environ none b =
        Aurornis._get_execution_environment p environ (some []) b) ∧
    (∀ (p : List Char) (environ : String → Option String) (u : List (String × String))
        (strip : Bool) (k : String),
      Aurornis.dictGet (Aurornis._get_execution_environment p environ (some u) strip) k =
        if strip = true ∧ k = "NO_COLOR" then some (some "1")
        else
          match Aurornis.lookupLast u k with
          | some v => some (some v)
          | none =>
            if k = "LANG" then some (some "C")
            else if p = "win32".data then
              if k = "SystemRoot" then some (environ "SystemRoot") else none
            else if k = "PATH" then some (environ "PATH") else none) :=
  ⟨fun _ _ _ => rfl, Aurornis.dictGet_execution_environment⟩

/-- Claim C5 counterexample: on a POSIX platform with no caller-supplied
entries and stripping off, the claimed result may contain only the
executable-resolution variable `PATH`, yet the constructor's output also
contains the key `LANG` (bound to `"C"`). -/
theorem c5_lang_always_present_counterexample :
    Aurornis.dictGet
        (Aurornis._get_execution_environment "linux".data
          (fun k => if k = "PATH" then some "/bin" else none) none false) "LANG"
      = some (some "C") ∧
    ("LANG" : String) ≠ "PATH" ∧ ("LANG" : String) ≠ "NO_COLOR" :=
  ⟨by rfl, by decide, by decide⟩

/-- Claim C6: environment noninterference.  First, the constructor reads the
calling process's environment only at the platform's executable-resolution
variable, so two runs whose calling environments agree there (and may differ
in every other variable) produce identical child environments.  Second, a
variable that is not in the base key set (`LANG` plus the resolution
variable), not a caller-supplied key and not the `NO_COLOR` key never
appears in the constructed environment, whatever value it has in the
calling process. -/
theorem c6_environment_noninterference :
    (∀ (p : List Char) (env1 env2 : String → Option String)
        (u : Option (List (String × String))) (strip : Bool),
      (p = "win32".data → env1 "SystemRoot" = env2 "SystemRoot") →
      (p ≠ "win32".data → env1 "PATH" = env2 "PATH") →
      Aurornis._get_execution_environment p env1 u strip =
        Aurornis._get_execution_environment p env2 u strip) ∧
    (∀ (p : List Char) (environ : String → Option String) (u : List (String × String))
        (strip : Bool) (k : String),
      k ≠ "LANG" → k ≠ "PATH" → k ≠ "SystemRoot" → k ≠ "NO_COLOR" →
      Aurornis.lookupLast u k = none →
      Aurornis.dictGet (Aurornis._get_execution_environment p environ (some u) strip) k
        = none) := by
  constructor
  · intro p env1 env2 u strip h1 h2
    cases u <;> cases strip <;> by_cases hp : p = "win32".data <;>
      simp_all [Aurornis._get_execution_environment]
  · intro p environ u strip k hL hP hS hN hu
    rw [Aurornis.dictGet_execution_environment]
    simp [hL, hP, hS, hN, hu]

/-- Claim C6 witness: a calling environment with an extra variable `SECRET`
produces the same child environment as one without it, and `SECRET` is
absent from the result. -/
theorem c6_environment_noninterference_witness :
    Aurornis._get_execution_environment "linux".data
        (fun k => if k = "PATH" then some "/bin" else if k = "SECRET" then some "s" else none)
        none false =
      Aurornis._get_execution_environment "linux".data
        (fun k => if k = "PATH" then some "/bin" else none) none false ∧
    Aurornis.dictGet
        (Aurornis._get_execution_environment "linux".data
          (fun k => if k = "PATH" then some "/bin" else if k = "SECRET" then some "s" else none)
          (some []) false) "SECRET" = none :=
  ⟨c6_environment_noninterference.1 _ _ _ _ _ (fun h => absurd h (by decide)) (fun _ => by decide),
   c6_environment_noninterference.2 _ _ _ _ _ (by decide) (by decide) (by decide) (by decide) rfl⟩

namespace Aurornis

theorem log2fuel_le : ∀ (fuel m j : Nat), m < 2 ^ (j + 1) → log2fuel fuel m ≤ j := by
  intro fuel
  induction fuel with
  | zero => intro m j _; simp [log2fuel]
  | succ f ih =>
    intro m j h
    by_cases h2 : 2 ≤ m
    · cases j with
      | zero =>
        exfalso
        have hlt : m < 2 := by simpa using h
        omega
      | succ j2 =>
        have hm : m / 2 < 2 ^ (j2 + 1) := by
          rw [Nat.div_lt_iff_lt_mul (by norm_num : (0 : Nat) < 2)]
          calc m < 2 ^ (j2 + 1 + 1) := h
            _ = 2 ^ (j2 + 1) * 2 := by ring
        have hrec := ih (m / 2) j2 hm
        simp only [log2fuel, if_pos h2]
        omega
    · simp [log2fuel, h2]

theorem rne_1000_bounds (a : Nat) : a / 1000 ≤ rne a 1000 ∧ rne a 1000 ≤ a / 1000 + 1 := by
  simp only [rne]
  split_ifs <;> omega

theorem div_eq_of_between (m P D F : Nat) (h1 : D * P + F ≤ m) (h2 : m ≤ D * P + F + 1)
    (h4 : F + 1 < P) : m / P = D := by
  apply Nat.div_eq_of_lt_le
  · exact le_trans (Nat.le_add_right _ _) h1
  · calc m ≤ D * P + F + 1 := h2
      _ < D * P + P := by
        have h5 := Nat.add_lt_add_left h4 (D * P)
        simpa [Nat.add_assoc] using h5
      _ = (D + 1) * P := by ring

/-- Shared helper: for a binade exponent at most 42 — a quotient below
`2 ^ 43` — the grid spacing is at most `2 ^ (-10)`, so rounding cannot move
the quotient across an integer and the float truncation agrees with floor
division. -/
theorem floatDivTrunc_small (n : Nat) (e : Int) (he : e ≤ 42) :
    floatDivTrunc n e = n / 1000 := by
  have hneg : ¬ (0 : Int) ≤ e - 52 := by omega
  rw [floatDivTrunc, if_neg hneg]
  set K := (52 - e).toNat with hKdef
  have hK : 10 ≤ K := by omega
  have hp1000 : 1000 < 2 ^ K := by
    calc (1000 : Nat) < 2 ^ 10 := by norm_num
      _ ≤ 2 ^ K := Nat.pow_le_pow_right (by norm_num) hK
  obtain ⟨hlo, hhi⟩ := rne_1000_bounds (n * 2 ^ K)
  have hsplit : n * 2 ^ K / 1000 = n / 1000 * 2 ^ K + n % 1000 * 2 ^ K / 1000 := by
    conv_lhs => rw [← Nat.div_add_mod n 1000]
    rw [Nat.add_mul, Nat.mul_assoc, Nat.mul_add_div (by norm_num)]
  have hfrac : n % 1000 * 2 ^ K / 1000 + 1 < 2 ^ K := by
    have hb1 : n % 1000 * 2 ^ K ≤ 999 * 2 ^ K :=
      Nat.mul_le_mul_right _ (by omega)
    have hb2 : n % 1000 * 2 ^ K / 1000 ≤ 999 * 2 ^ K / 1000 := Nat.div_le_div_right hb1
    have hb3 : 999 * 2 ^ K / 1000 < 2 ^ K - 1 := by
      rw [Nat.div_lt_iff_lt_mul (by norm_num : (0 : Nat) < 1000)]
      omega
    omega
  rw [hsplit] at hlo hhi
  exact div_eq_of_between _ _ _ _ hlo hhi hfrac

/-- Shared helper: below `1000 * 2 ^ 43` nanoseconds the modelled
`int(n / 1000)` coincides with floor division. -/
theorem intDivFloat1000_eq_div (n : Nat) (h : n < 1000 * 2 ^ 43) :
    intDivFloat1000 n = n / 1000 := by
  by_cases h0 : n = 0
  · subst h0; rfl
  · rw [intDivFloat1000, if_neg h0]
    by_cases h1 : 1000 ≤ n
    · rw [if_pos h1]
      apply floatDivTrunc_small
      have hdiv : n / 1000 < 2 ^ (42 + 1) := by
        rw [Nat.div_lt_iff_lt_mul (by norm_num : (0 : Nat) < 1000)]
        calc n < 1000 * 2 ^ 43 := h
          _ = 2 ^ (42 + 1) * 1000 := by ring
      have hlog := log2fuel_le (n / 1000) (n / 1000) 42 hdiv
      omega
    · rw [if_neg h1]
      apply floatDivTrunc_small
      omega

end Aurornis

/-- Claim C4, amended: for every stored duration below `1000 * 2 ^ 43`
(about `8.8 * 10 ^ 15` nanoseconds, 101 days), the unit-converting
accessors satisfy `exec_time_us = exec_time_ns / 1000` and
`exec_time_ms = exec_time_us / 1000` with truncating integer division —
both for the nanosecond-based result class of `model.py` and for the
millisecond accessor of the microsecond-based class of `__init__.py`.  The
accessors divide through binary64 floating point (`int(n / 1000)`), so for
larger stored values the result can exceed the floor quotient by one. -/
theorem c4_exec_time_unit_identities_below_threshold :
    (∀ r : AurornisModel.CommandResult, r._exec_time_nanoseconds < 1000 * 2 ^ 43 →
      r.exec_time_us = r.exec_time_ns / 1000 ∧ r.exec_time_ms = r.exec_time_us / 1000) ∧
    (∀ c : Aurornis.CommandResult, c._exec_time_microseconds < 1000 * 2 ^ 43 →
      c.exec_time_ms = c.exec_time_us / 1000) := by
  constructor
  · intro r h
    have h1 : r.exec_time_us = r.exec_time_ns / 1000 := Aurornis.intDivFloat1000_eq_div _ h
    refine ⟨h1, ?_⟩
    rw [AurornisModel.CommandResult.exec_time_ms]
    apply Aurornis.intDivFloat1000_eq_div
    calc r.exec_time_us = r.exec_time_ns / 1000 := h1
      _ ≤ r.exec_time_ns := Nat.div_le_self _ _
      _ < 1000 * 2 ^ 43 := h
  · intro c h
    exact Aurornis.intDivFloat1000_eq_div _ h

/-- Claim C4 witness: for a result that stored 123456789 nanoseconds the
microsecond and millisecond accessors equal the floor quotients, and for a
result of the older class that stored 1500000 microseconds the millisecond
accessor equals the floor quotient. -/
theorem c4_exec_time_unit_identities_witness :
    ((AurornisModel.CommandResult.mk [] 0 [] [] 123456789).exec_time_us =
        (AurornisModel.CommandResult.mk [] 0 [] [] 123456789).exec_time_ns / 1000 ∧
      (AurornisModel.CommandResult.mk [] 0 [] [] 123456789).exec_time_ms =
        (AurornisModel.CommandResult.mk [] 0 [] [] 123456789).exec_time_us / 1000) ∧
    (Aurornis.CommandResult.mk [] 0 [] [] 1500000).exec_time_ms =
      (Aurornis.CommandResult.mk [] 0 [] [] 1500000).exec_time_us / 1000 :=
  ⟨c4_exec_time_unit_identities_below_threshold.1 _ (by norm_num),
   c4_exec_time_unit_identities_below_threshold.2 _ (by norm_num)⟩

/-- Claim C4 counterexample: for the stored duration
`1000 * 2 ^ 44 + 999 = 17592186044416999` nanoseconds, binary64 division by
1000 rounds up to `2 ^ 44 + 1` before truncation, so `exec_time_us` exceeds
the floor quotient `exec_time_ns / 1000 = 2 ^ 44` by one. -/
theorem c4_float_division_counterexample :
    (AurornisModel.CommandResult.mk [] 0 [] [] 17592186044416999).exec_time_us
        = 17592186044417 ∧
    (17592186044416999 : Nat) / 1000 = 17592186044416 ∧
    (AurornisModel.CommandResult.mk [] 0 [] [] 17592186044416999).exec_time_us ≠
      (AurornisModel.CommandResult.mk [] 0 [] [] 17592186044416999).exec_time_ns / 1000 := by
  refine ⟨by rfl, by rfl, by decide⟩

namespace Aurornis

/-- Shared helper: the recursive `"\n".join` model agrees with
`List.intercalate` on the one-character newline separator. -/
theorem joinLines_eq_intercalate :
    ∀ l : List (List Char), joinLines l = List.intercalate ['\n'] l := by
  intro l
  induction l with
  | nil => simp [joinLines, List.intercalate, List.intersperse]
  | cons x rest ih =>
    cases rest with
    | nil => simp [joinLines, List.intercalate, List.intersperse]
    | cons y t =>
      simp only [List.intercalate, List.intersperse] at ih ⊢
      simp [joinLines, ih]

end Aurornis

/-- Claim C1, code-bug evidence: for a run whose two clock readings are
1.5 seconds apart (start 0 µs, end 1500000 µs), the returned result stores
an execution time of 500000 µs — `(datetime.now() - start_time).microseconds`
is the sub-second component of the elapsed `timedelta`, not the elapsed
difference of the two timestamps, which is 1500000 µs. -/
theorem c1_run_stores_subsecond_component :
    ∃ r : Aurornis.CommandResult,
      Aurornis.run ["sleep".data] none false none false "linux".data (fun _ => none)
          (Aurornis.ProcBehavior.launched fun _ _ => (0, [], [])) 0 1500000 =
        Except.ok r ∧
      r.exec_time_us = 500000 ∧ 1500000 - 0 ≠ r.exec_time_us :=
  ⟨_, rfl, rfl, by decide⟩

/-- Claim C7: when the spawn fails, `run` propagates the `Popen` exception
to the caller and returns no result at all; when a child launches, `run`
always returns a normal `CommandResult` whose return code is exactly the
child's exit code — also when that code is nonzero — never an error and
never a fabricated code. -/
theorem c7_spawn_error_vs_nonzero_exit :
    (∀ cmd env rcs si ncr p environ s t,
      Aurornis.run cmd env rcs si ncr p environ Aurornis.ProcBehavior.spawnFailure s t =
        Except.error Aurornis.SpawnError.popenRaised) ∧
    (∀ cmd env rcs si ncr p environ child s t,
      ∃ r : Aurornis.CommandResult,
        Aurornis.run cmd env rcs si ncr p environ (Aurornis.ProcBehavior.launched child) s t =
          Except.ok r ∧
        r.return_code =
          (child (Aurornis._get_execution_environment p environ env rcs)
            (Aurornis.stdinBlock si)).1) :=
  ⟨fun _ _ _ _ _ _ _ _ _ => rfl,
   fun _ _ _ _ _ _ _ _ _ _ => ⟨_, rfl, rfl⟩⟩

/-- Claim C9: the `input` block handed to the child's standard input is
`None` when the `stdin` argument is absent or an empty list — nothing is
written and the stream is closed at once — and otherwise it is exactly the
lines joined with `"\n"` and encoded as UTF-8; moreover `run` observes the
child only through its behaviour at that exact input block, i.e. those are
precisely the bytes the child is given. -/
theorem c9_stdin_joined_utf8 :
    Aurornis.stdinBlock none = none ∧
    Aurornis.stdinBlock (some []) = none ∧
    (∀ lines : List (List Char), lines ≠ [] →
      Aurornis.stdinBlock (some lines) =
        some (Aurornis.encodeUTF8 (List.intercalate ['\n'] lines))) ∧
    (∀ cmd env rcs si ncr p environ child₁ child₂ s t,
      (∀ e, child₁ e (Aurornis.stdinBlock si) = child₂ e (Aurornis.stdinBlock si)) →
      Aurornis.run cmd env rcs si ncr p environ (Aurornis.ProcBehavior.launched child₁) s t =
        Aurornis.run cmd env rcs si ncr p environ (Aurornis.ProcBehavior.launched child₂) s t) := by
  refine ⟨rfl, rfl, ?_, ?_⟩
  · intro lines hne
    simp only [Aurornis.stdinBlock, if_pos (List.length_pos.mpr hne)]
    rw [Aurornis.joinLines_eq_intercalate]
  · intro cmd env rcs si ncr p environ child₁ child₂ s t h
    simp only [Aurornis.run]
    rw [h]

/-- Claim C9 witness: the stdin lines `["a", "b"]` are delivered to the
child as the UTF-8 bytes `[97, 10, 98]` of `"a\nb"`, and two children that
agree on that input block make `run` produce identical results. -/
theorem c9_stdin_joined_utf8_witness :
    Aurornis.stdinBlock (some ["a".data, "b".data]) =
      some (Aurornis.encodeUTF8 (List.intercalate ['\n'] ["a".data, "b".data])) ∧
    Aurornis.stdinBlock (some ["a".data, "b".data]) = some [97, 10, 98] ∧
    Aurornis.run [] none false (some ["a".data, "b".data]) false "linux".data (fun _ => none)
        (Aurornis.ProcBehavior.launched fun _ i =>
          (if i = some [97, 10, 98] then 0 else 1, [], []))
        0 0 =
      Aurornis.run [] none false (some ["a".data, "b".data]) false "linux".data (fun _ => none)
        (Aurornis.ProcBehavior.launched fun _ _ => (0, [], [])) 0 0 :=
  ⟨c9_stdin_joined_utf8.2.2.1 ["a".data, "b".data] (by decide),
   by rfl,
   c9_stdin_joined_utf8.2.2.2 _ _ _ _ _ _ _ _ _ _ _ (fun e => by decide)⟩

/-- Claim C10 counterexample: on `"\x1b[1;\x1b[1;31m31m"` the single-pass
stripper leaves `"\x1b[1;31m"` (the sequence formed by the characters that
surrounded the removed occurrence), while `_remove_colors`' second pass
removes it too, so the two functions are not extensionally equal. -/
theorem c10_second_pass_not_redundant_counterexample :
    Aurornis.onePass Aurornis.UNIX_ESC_CHAR "\x1b[1;\x1b[1;31m31m".data = "\x1b[1;31m".data ∧
    Aurornis._remove_colors "\x1b[1;\x1b[1;31m31m".data = [] ∧
    Aurornis._remove_colors "\x1b[1;\x1b[1;31m31m".data ≠
      Aurornis.onePass Aurornis.UNIX_ESC_CHAR "\x1b[1;\x1b[1;31m31m".data := by
  have h1 : Aurornis.onePass Aurornis.UNIX_ESC_CHAR "\x1b[1;\x1b[1;31m31m".data
      = "\x1b[1;31m".data := by rfl
  have h2 : Aurornis._remove_colors "\x1b[1;\x1b[1;31m31m".data = [] := by rfl
  exact ⟨h1, h2, by rw [h1, h2]; decide⟩

/-- Claim C8: for every result object — whatever command, streams and
duration it stores — the success accessors return true exactly when the
stored return code is zero: the `is_successful` method of the
microsecond-based class, and both the `successful` property and the
deprecated `is_successful` method (which returns `self.successful`) of the
nanosecond-based class. -/
theorem c8_success_iff_zero_return_code :
    (∀ r : Aurornis.CommandResult, r.is_successful = true ↔ r.return_code = 0) ∧
    (∀ r : AurornisModel.CommandResult,
      (r.successful = true ↔ r.return_code = 0) ∧ r.is_successful = r.successful) := by
  constructor
  · intro r
    simp [Aurornis.CommandResult.is_successful, Aurornis.CommandResult.return_code]
  · intro r
    exact ⟨by simp [AurornisModel.CommandResult.successful,
      AurornisModel.CommandResult.return_code], rfl⟩
